import Mathlib

/-!
# Verification of the cubemap converter core (`src/main.rs`)

Shallow embedding of the reprojection engine of `rust_cubemap`:
the Face Projector `cube_to_spherical`, the bilinear Sampler
(wraparound addressing plus `bilerp`), and the chunked Face Renderer
inside `convert_jpg_to_cubemap`.  `f32` arithmetic is modelled by exact
real arithmetic; `u32`/`u8` by `ℕ`.  Rust panics are modelled explicitly
where a claim depends on them.
-/

open Real

/-- Model of `f32::atan2 self:=y, other:=x` over the reals (the usual
four-quadrant arctangent, range `[-π, π]`; reals have no signed zeros, so
`atan2 0 x = π` for `x < 0` and `atan2 0 0 = 0`). -/
noncomputable def atan2 (y x : ℝ) : ℝ :=
  if 0 < x then Real.arctan (y / x)
  else if x < 0 then
    (if 0 ≤ y then Real.arctan (y / x) + π else Real.arctan (y / x) - π)
  else
    (if 0 < y then π / 2 else if y < 0 then -(π / 2) else 0)

/-- Face Projector: translation of `cube_to_spherical` (src/main.rs:36-85).
Shadowed `x`/`y` are rendered as `xn`/`yn`. -/
noncomputable def cube_to_spherical (x y size : ℕ) (face : String) : ℝ × ℝ :=
  let xn : ℝ := 2 * (x : ℝ) / (size : ℝ) - 1
  let yn : ℝ := 2 * (y : ℝ) / (size : ℝ) - 1
  if face = "right" then
    let r := Real.sqrt (xn * xn + yn * yn + 1)
    let phi := atan2 yn 1
    let theta := Real.arccos (xn / r)
    (phi / (2 * π) + 1 / 2, theta / π)
  else if face = "left" then
    let r := Real.sqrt (xn * xn + yn * yn + 1)
    let phi := atan2 yn (-1)
    let theta := Real.arccos (-xn / r)
    (phi / (2 * π) + 1 / 2, theta / π)
  else if face = "up" then
    let r := Real.sqrt (xn * xn + yn * yn + 1)
    let phi := atan2 (-xn) yn
    let theta := Real.arccos (1 / r)
    (phi / (2 * π) + 1 / 2, theta / π)
  else if face = "down" then
    let r := Real.sqrt (xn * xn + yn * yn + 1)
    let phi := atan2 xn (-yn)
    let theta := Real.arccos (-1 / r)
    (phi / (2 * π) + 1 / 2, theta / π)
  else if face = "front" then
    let r := Real.sqrt (xn * xn + yn * yn + 1)
    let phi := atan2 xn 1
    let theta := Real.arccos (yn / r)
    (phi / (2 * π) + 1 / 2, theta / π)
  else if face = "back" then
    let r := Real.sqrt (xn * xn + yn * yn + 1)
    let phi := atan2 (-xn) (-1)
    let theta := Real.arccos (-yn / r)
    (phi / (2 * π) + 1 / 2, theta / π)
  else (0, 0)

/-- The six face labels, in the order of `faces` (src/main.rs:100). -/
def faceNames : List String := ["right", "left", "up", "down", "front", "back"]

/-- Exact-real model of `f32::rem_euclid`: `a - b * ⌊a / b⌋`
(for `b > 0` this is the representative of `a` mod `b` in `[0, b)`).
Exact only up to the rounding of `rem_euclid`'s compensating addition,
which `remEuclid32` models separately: for tiny negative `a` the f32
function returns exactly `b`, not a value below it. -/
noncomputable def fmod (a b : ℝ) : ℝ := a - b * ⌊a / b⌋

/-- A decoded source raster: width, height and a pixel-lookup function
returning the three 8-bit channels (`image::RgbImage`). -/
structure RgbImage where
  width : ℕ
  height : ℕ
  pix : ℕ → ℕ → ℕ × ℕ × ℕ

/-- Wrapped pixel-space coordinate `(t * w).rem_euclid(w)` (src/main.rs:114-115). -/
noncomputable def wrapCoord (w : ℕ) (t : ℝ) : ℝ := fmod (t * w) w

/-- Floor coordinate `x0 = x.floor() as u32` (src/main.rs:117-118). -/
noncomputable def idx0 (w : ℕ) (t : ℝ) : ℕ := (⌊wrapCoord w t⌋).toNat

/-- Wrapped neighbour `x1 = (x0 + 1) % width` (src/main.rs:119-120). -/
noncomputable def idx1 (w : ℕ) (t : ℝ) : ℕ := (idx0 w t + 1) % w

/-- Fractional offset `fx = x.fract()` (src/main.rs:122-123); `fract` is
truncation-based but the wrapped coordinate is nonnegative, so it agrees
with `Int.fract`. -/
noncomputable def fracCoord (w : ℕ) (t : ℝ) : ℝ := Int.fract (wrapCoord w t)

/-- Round a positive real to the `f32` grid of its binade: values in
`[2^e, 2^(e+1))` (binade exponent `e = Int.log 2 v`) are rounded to the
nearest multiple of the ulp `2^(e-23)`.  This is IEEE-754 round-to-nearest
for normal-range positive values (`round` resolves exact ties upward where
IEEE picks the even significand; no tie occurs in the facts proved here).
Subnormal and overflow ranges are not modelled. -/
noncomputable def roundF32 (v : ℝ) : ℝ :=
  if 0 < v then
    (2 : ℝ) ^ (Int.log 2 v - 23) * round (v / (2 : ℝ) ^ (Int.log 2 v - 23))
  else v

/-- `f32::rem_euclid` (src/main.rs:114-115) keeping the one rounding step the
exact model `fmod` misses.  Rust implements `a.rem_euclid(b)` as
`let r = self % rhs; if r < 0 { r + rhs.abs() } else { r }`; the float `%`
is exact in IEEE-754, so for `-b < a < 0` the result is the single rounded
f32 addition `roundF32 (a + b)` — which returns exactly `b` whenever `-a`
is below half an ulp of `b`.  When the remainder is nonnegative no addition
occurs and the result is the exact `fmod a b`; inputs below `-b` (which the
program never produces) are left to the exact model as well. -/
noncomputable def remEuclid32 (a b : ℝ) : ℝ :=
  if -b < a ∧ a < 0 then roundF32 (a + b) else fmod a b

/-- Floor coordinate `x0 = x.floor() as u32` over the f32-faithful wrapped
coordinate (src/main.rs:114-118). -/
noncomputable def idx0F32 (w : ℕ) (t : ℝ) : ℕ := (⌊remEuclid32 (t * w) w⌋).toNat

/-- Wrapped neighbour `x1 = (x0 + 1) % width` over the f32-faithful floor
coordinate (src/main.rs:119-120). -/
noncomputable def idx1F32 (w : ℕ) (t : ℝ) : ℕ := (idx0F32 w t + 1) % w

/-- Rust saturating `f32 as u8` cast: truncate toward zero, clamp to `[0, 255]`
(truncation equals `⌊·⌋` on nonnegative input; `Int.toNat` sends the negative
range to `0`, as the saturating cast does). -/
noncomputable def f32_as_u8 (v : ℝ) : ℕ := min (⌊v⌋.toNat) 255

/-- Per-channel bilinear interpolation `bilerp` (src/main.rs:158-163). -/
noncomputable def bilerp (c00 c10 c01 c11 : ℕ) (fx fy : ℝ) : ℕ :=
  let c0 : ℝ := c00 * (1 - fx) + c10 * fx
  let c1 : ℝ := c01 * (1 - fx) + c11 * fx
  f32_as_u8 (c0 * (1 - fy) + c1 * fy + 1 / 2)

/-- The Sampler: body of the per-pixel loop (src/main.rs:114-134). -/
noncomputable def sample (img : RgbImage) (u v : ℝ) : ℕ × ℕ × ℕ :=
  let x0 := idx0 img.width u
  let y0 := idx0 img.height v
  let x1 := idx1 img.width u
  let y1 := idx1 img.height v
  let fx := fracCoord img.width u
  let fy := fracCoord img.height v
  let p00 := img.pix x0 y0
  let p10 := img.pix x1 y0
  let p01 := img.pix x0 y1
  let p11 := img.pix x1 y1
  (bilerp p00.1 p10.1 p01.1 p11.1 fx fy,
   bilerp p00.2.1 p10.2.1 p01.2.1 p11.2.1 fx fy,
   bilerp p00.2.2 p10.2.2 p01.2.2 p11.2.2 fx fy)

/-- Pixel traversal order of `enumerate_pixels_mut` on an `ImageBuffer`
(src/main.rs:107): row-major, `x` fastest; flat index `i` holds pixel
`(i % size, i / size)`. -/
def pixelIndices (size : ℕ) : List (ℕ × ℕ) :=
  (List.range (size * size)).map (fun i => (i % size, i / size))

/-- Contiguous chunking of a list, mirroring `par_chunks_mut(k)`
(src/main.rs:109): chunks of `k` elements, the last one possibly shorter.
(For `k = 0` this yields singleton chunks; the Rust call panics there,
which `convert_jpg_to_cubemap` models separately.) -/
def chunkList {α : Type} (k : ℕ) : List α → List (List α)
  | [] => []
  | x :: xs => (x :: xs.take (k - 1)) :: chunkList k (xs.drop (k - 1))
termination_by l => l.length
decreasing_by simp only [List.length_drop, List.length_cons]; omega

/-- One pixel of a face render: Projector then Sampler (src/main.rs:112-134). -/
noncomputable def renderPixel (img : RgbImage) (size : ℕ) (face : String)
    (p : ℕ × ℕ) : ℕ × ℕ × ℕ :=
  sample img (cube_to_spherical p.1 p.2 size face).1 (cube_to_spherical p.1 p.2 size face).2

/-- The chunk size actually used: `(size * 16).min(size * size)`
(src/main.rs:106-109). -/
def chunkSizeUsed (size : ℕ) : ℕ := min (size * 16) (size * size)

/-- Chunked face render (src/main.rs:107-136): the face's pixel list is split
into contiguous chunks, each chunk is processed independently, and the
results occupy the chunks' disjoint slices of the buffer (re-joined here). -/
noncomputable def renderChunks (img : RgbImage) (size : ℕ) (face : String) (k : ℕ) :
    List (ℕ × ℕ × ℕ) :=
  ((chunkList k (pixelIndices size)).map (fun chunk => chunk.map (renderPixel img size face))).flatten

/-- The finished `face_buffer` contents for one face (src/main.rs:103-136). -/
noncomputable def faceBuffer (img : RgbImage) (size : ℕ) (face : String) :
    List (ℕ × ℕ × ℕ) :=
  renderChunks img size face (chunkSizeUsed size)

/-- The 4×2 solid red (255,0,0) source raster of the end-to-end test. -/
def redImg : RgbImage := { width := 4, height := 2, pix := fun _ _ => (255, 0, 0) }

/-- Externally visible side effects of one `convert_jpg_to_cubemap` run. -/
inductive ConvertEffect where
  | createOutputDir : ConvertEffect
  | faceFileWritten : String → ConvertEffect
deriving DecidableEq

/-- How one `convert_jpg_to_cubemap` run terminates: normally, or by a Rust
panic (the function has no validation code, so for bad dimensions it never
returns an `Err`). -/
inductive ConvertOutcome where
  | ok : ConvertOutcome
  | panicked : String → ConvertOutcome
deriving DecidableEq

/-- Control-flow model of `convert_jpg_to_cubemap` (src/main.rs:87-156):
the effect trace and termination outcome.  The function performs no input
validation.  It always creates the output directory first (line 97); then
`par_chunks_mut(chunk_size.min(size * size))` asserts a non-zero chunk size
(line 109), which panics when `size = 0`; otherwise, with a zero-dimension
raster, the first processed pixel panics at `(x0 + 1) % width`
(lines 119-120, integer remainder with a divisor of zero — the earlier
`rem_euclid` on `f32` merely yields `NaN`, and `NaN.floor() as u32` is `0`).
Only if neither panic fires are the six face files encoded and written.
Per-face pixel content is modelled by `faceBuffer`. -/
def convert_jpg_to_cubemap (img : RgbImage) (size quality : ℕ) :
    List ConvertEffect × ConvertOutcome :=
  if chunkSizeUsed size = 0 then
    ([ConvertEffect.createOutputDir], ConvertOutcome.panicked ("chunk size must be non-zero"))
  else if img.width = 0 ∨ img.height = 0 then
    ([ConvertEffect.createOutputDir],
     ConvertOutcome.panicked ("attempt to calculate the remainder with a divisor of zero"))
  else
    (ConvertEffect.createOutputDir :: faceNames.map ConvertEffect.faceFileWritten,
     ConvertOutcome.ok)

-- ## Theorems

theorem arctan_nonneg_of (x : ℝ) (h : 0 ≤ x) : 0 ≤ Real.arctan x := by
  have := Real.arctan_strictMono.monotone h
  rwa [Real.arctan_zero] at this

theorem arctan_nonpos_of (x : ℝ) (h : x ≤ 0) : Real.arctan x ≤ 0 := by
  have := Real.arctan_strictMono.monotone h
  rwa [Real.arctan_zero] at this

/-- `atan2` always lands in `[-π, π]`. -/
theorem atan2_range (y x : ℝ) : -π ≤ atan2 y x ∧ atan2 y x ≤ π := by
  have hpi : 0 < π := Real.pi_pos
  have h1 : Real.arctan (y / x) < π / 2 := Real.arctan_lt_pi_div_two _
  have h2 : -(π / 2) < Real.arctan (y / x) := Real.neg_pi_div_two_lt_arctan _
  unfold atan2
  split_ifs with hx hx' hy hy' hy''
  · constructor <;> nlinarith
  · -- x < 0, 0 ≤ y : arctan (y/x) ≤ 0
    have hq : y / x ≤ 0 := div_nonpos_iff.mpr (Or.inl ⟨hy, hx'.le⟩)
    have := arctan_nonpos_of _ hq
    constructor <;> nlinarith
  · -- x < 0, y < 0 : arctan (y/x) ≥ 0
    have hq : 0 ≤ y / x := div_nonneg_iff.mpr (Or.inr ⟨by linarith, hx'.le⟩)
    have := arctan_nonneg_of _ hq
    constructor <;> nlinarith
  · constructor <;> nlinarith
  · constructor <;> nlinarith
  · constructor <;> nlinarith

/-- The azimuth normalisation `phi / (2π) + 1/2` maps `[-π, π]` into `[0, 1]`. -/
theorem azimuth_norm_mem (t : ℝ) (h1 : -π ≤ t) (h2 : t ≤ π) :
    0 ≤ t / (2 * π) + 1 / 2 ∧ t / (2 * π) + 1 / 2 ≤ 1 := by
  have hpi : 0 < π := Real.pi_pos
  have hlo : -(1 / 2 : ℝ) ≤ t / (2 * π) := by
    rw [neg_le, ← neg_div]
    rw [div_le_iff₀ (by linarith : (0:ℝ) < 2 * π)]
    nlinarith
  have hhi : t / (2 * π) ≤ 1 / 2 := by
    rw [div_le_iff₀ (by linarith : (0:ℝ) < 2 * π)]
    nlinarith
  constructor <;> linarith

/-- The elevation normalisation `arccos w / π` lands in `[0, 1]`. -/
theorem elevation_norm_mem (w : ℝ) :
    0 ≤ Real.arccos w / π ∧ Real.arccos w / π ≤ 1 := by
  have hpi : 0 < π := Real.pi_pos
  constructor
  · exact div_nonneg (Real.arccos_nonneg w) hpi.le
  · rw [div_le_one hpi]
    exact Real.arccos_le_pi w

theorem proj_branch_mem (a w : ℝ) (h1 : -π ≤ a) (h2 : a ≤ π) :
    0 ≤ a / (2 * π) + 1 / 2 ∧ a / (2 * π) + 1 / 2 ≤ 1 ∧
    0 ≤ Real.arccos w / π ∧ Real.arccos w / π ≤ 1 :=
  ⟨(azimuth_norm_mem a h1 h2).1, (azimuth_norm_mem a h1 h2).2,
   (elevation_norm_mem w).1, (elevation_norm_mem w).2⟩

/-- C1 (amended): for every face label among the six, every face size `S > 0`
and every pixel `(x, y)` with `0 ≤ x, y < S`, the Face Projector returns
`(u, v)` with `0 ≤ u ≤ 1` and `0 ≤ v ≤ 1` (the closed upper
bound is attained, e.g. at the centre pixel of the `down` face). -/
theorem C1_projector_range (x y size : ℕ) (face : String) (hface : face ∈ faceNames)
    (hsize : 0 < size) (hx : x < size) (hy : y < size) :
    0 ≤ (cube_to_spherical x y size face).1 ∧ (cube_to_spherical x y size face).1 ≤ 1 ∧
    0 ≤ (cube_to_spherical x y size face).2 ∧ (cube_to_spherical x y size face).2 ≤ 1 := by
  fin_cases hface <;>
    exact proj_branch_mem _ _ (atan2_range _ _).1 (atan2_range _ _).2

theorem C1_projector_range_witness :
    0 ≤ (cube_to_spherical 0 0 1 "right").1 ∧ (cube_to_spherical 0 0 1 "right").1 ≤ 1 ∧
    0 ≤ (cube_to_spherical 0 0 1 "right").2 ∧ (cube_to_spherical 0 0 1 "right").2 ≤ 1 :=
  C1_projector_range 0 0 1 "right" (by simp [faceNames]) (by decide) (by decide) (by decide)

/-- C1 counterexample: at the centre pixel `(1, 1)` of the `down` face at
`S = 2`, the projector returns `v = 1` exactly, so `(u, v) ∈ [0,1)²` fails. -/
theorem C1_boundary_counterexample :
    (cube_to_spherical 1 1 2 "down").2 = 1 ∧
    ¬ ((cube_to_spherical 1 1 2 "down").2 < 1) := by
  have h : (cube_to_spherical 1 1 2 "down").2 = 1 := by
    simp [cube_to_spherical]
    exact div_self Real.pi_ne_zero
  exact ⟨h, by rw [h]; exact lt_irrefl 1⟩

/-- C2: the `front` and `left` faces are adjacent in a cubemap (front's left
edge meets left's right edge), yet at `S = 2` the corresponding boundary
pixels `front (0,0)` and `left (1,0)` get azimuths `u = 3/8` and `u = 1/8`:
a quarter turn apart, which is not less than the one-source-pixel angular
resolution `1/16` of a turn of a `W = 16` source. -/
theorem C2_seam_front_left_diverges :
    (cube_to_spherical 0 0 2 "front").1 = 3 / 8 ∧
    (cube_to_spherical 1 0 2 "left").1 = 1 / 8 ∧
    ¬ (|(3 / 8 : ℝ) - 1 / 8| < 1 / 16) := by
  refine ⟨?_, ?_, ?_⟩
  case refine_3 =>
    rw [abs_of_nonneg (by norm_num : (0:ℝ) ≤ 3 / 8 - 1 / 8)]
    norm_num
  · have h : atan2 (-1) 1 = -(π / 4) := by
      unfold atan2
      rw [if_pos one_pos]
      norm_num [Real.arctan_neg, Real.arctan_one]
    simp [cube_to_spherical]
    rw [h]
    field_simp
    ring
  · have h : atan2 (-1) (-1) = Real.arctan 1 - π := by
      unfold atan2
      norm_num
    simp [cube_to_spherical]
    rw [h, Real.arctan_one]
    field_simp
    ring

/-- C10: any face string other than the six labels makes the projector
return exactly `(0, 0)` (the catch-all match arm), for every `x`, `y`, `S`. -/
theorem C10_unknown_face (face : String) (hface : face ∉ faceNames) (x y size : ℕ) :
    cube_to_spherical x y size face = (0, 0) := by
  simp only [faceNames, List.mem_cons, List.not_mem_nil, or_false, not_or] at hface
  obtain ⟨h1, h2, h3, h4, h5, h6⟩ := hface
  simp [cube_to_spherical, h1, h2, h3, h4, h5, h6]

theorem C10_unknown_face_witness :
    cube_to_spherical 7 5 16 "top" = (0, 0) :=
  C10_unknown_face ("top") (by decide) 7 5 16

theorem fmod_eq_mul_fract (a b : ℝ) (hb : b ≠ 0) :
    fmod a b = b * Int.fract (a / b) := by
  unfold fmod Int.fract
  field_simp

theorem fmod_mem (a b : ℝ) (hb : 0 < b) : 0 ≤ fmod a b ∧ fmod a b < b := by
  rw [fmod_eq_mul_fract a b hb.ne']
  constructor
  · exact mul_nonneg hb.le (Int.fract_nonneg _)
  · calc b * Int.fract (a / b) < b * 1 :=
          (mul_lt_mul_left hb).mpr (Int.fract_lt_one _)
    _ = b := mul_one b

theorem wrapCoord_mem (w : ℕ) (hw : 0 < w) (t : ℝ) :
    0 ≤ wrapCoord w t ∧ wrapCoord w t < w :=
  fmod_mem _ _ (by exact_mod_cast hw)

theorem idx0_lt (w : ℕ) (hw : 0 < w) (t : ℝ) : idx0 w t < w := by
  obtain ⟨h0, h1⟩ := wrapCoord_mem w hw t
  have hf0 : 0 ≤ ⌊wrapCoord w t⌋ := Int.floor_nonneg.mpr h0
  have hf1 : ⌊wrapCoord w t⌋ < (w : ℤ) := Int.floor_lt.mpr (by exact_mod_cast h1)
  unfold idx0
  omega

theorem idx1_lt (w : ℕ) (hw : 0 < w) (t : ℝ) : idx1 w t < w :=
  Nat.mod_lt _ hw

/-- C9: for every real sampling coordinate (tiny negatives included) and every
source raster with `W, H > 0`, the four pixel lookups `(x0|x1, y0|y1)` are
in bounds. -/
theorem remEuclid32_of_nonneg (a b : ℝ) (ha : 0 ≤ a) : remEuclid32 a b = fmod a b := by
  unfold remEuclid32
  rw [if_neg]
  intro h
  linarith [h.2]

theorem idx0F32_eq_idx0 (w : ℕ) (t : ℝ) (ht : 0 ≤ t) : idx0F32 w t = idx0 w t := by
  unfold idx0F32 idx0 wrapCoord
  rw [remEuclid32_of_nonneg _ _ (mul_nonneg ht (Nat.cast_nonneg w))]

theorem idx1F32_eq_idx1 (w : ℕ) (t : ℝ) (ht : 0 ≤ t) : idx1F32 w t = idx1 w t := by
  unfold idx1F32 idx1
  rw [idx0F32_eq_idx0 w t ht]

/-- C9 counterexample: on a width-3 raster, the tiny negative coordinate
`u = -10⁻²⁰` makes `rem_euclid` return exactly `3`: the remainder is
`-3·10⁻²⁰` and the compensating f32 addition `r + 3.0` rounds to `3.0`
(half an ulp of `3` is `2⁻²³ ≈ 1.19·10⁻⁷`, far above `3·10⁻²⁰`), so
`x0 = 3 = W` and `get_pixel(3, y)` is an out-of-bounds panic — the claim
fails on exactly the inputs it singles out. -/
theorem C9_f32_oob_counterexample :
    remEuclid32 (-(1 / 10 ^ 20) * (3 : ℕ)) (3 : ℕ) = 3 ∧
    idx0F32 3 (-(1 / 10 ^ 20)) = 3 ∧
    ¬ (idx0F32 3 (-(1 / 10 ^ 20)) < 3) := by
  have hrem : remEuclid32 (-(1 / 10 ^ 20) * (3 : ℕ)) (3 : ℕ) = 3 := by
    have ha : (-(1 / 10 ^ 20) * ((3 : ℕ) : ℝ)) = -(3 / 10 ^ 20) := by
      push_cast
      ring
    rw [remEuclid32, if_pos (by rw [ha]; push_cast; norm_num)]
    rw [ha]
    have hv : (-(3 / 10 ^ 20) + ((3 : ℕ) : ℝ)) = 3 - 3 / 10 ^ 20 := by
      push_cast
      ring
    rw [hv]
    rw [roundF32, if_pos (by norm_num : (0 : ℝ) < 3 - 3 / 10 ^ 20)]
    have hlog : Int.log 2 (3 - 3 / 10 ^ 20 : ℝ) = 1 := by
      rw [Int.log_of_one_le_right _ (by norm_num : (1 : ℝ) ≤ 3 - 3 / 10 ^ 20)]
      have hfl : ⌊(3 - 3 / 10 ^ 20 : ℝ)⌋₊ = 2 := by
        rw [Nat.floor_eq_iff (by norm_num)]
        constructor <;> norm_num
      rw [hfl, show Nat.log 2 2 = 1 from by rw [Nat.log_eq_one_iff]; omega]
      rfl
    rw [hlog]
    have hpow : (2 : ℝ) ^ ((1 : ℤ) - 23) = (4194304 : ℝ)⁻¹ := by norm_num
    rw [hpow]
    have hdiv : (3 - 3 / 10 ^ 20 : ℝ) / (4194304 : ℝ)⁻¹ =
        12582912 - 12582912 / 10 ^ 20 := by
      rw [div_eq_mul_inv, inv_inv]
      ring
    rw [hdiv]
    have hround : round (12582912 - 12582912 / 10 ^ 20 : ℝ) = 12582912 := by
      rw [round_eq, Int.floor_eq_iff]
      constructor <;> norm_num
    rw [hround]
    norm_num
  have h0 : idx0F32 3 (-(1 / 10 ^ 20)) = 3 := by
    unfold idx0F32
    rw [hrem]
    norm_num
    rfl
  exact ⟨hrem, h0, by omega⟩

/-- C9 (amended): for every nonnegative real coordinate (in particular the
whole `[0, 1]` range the Face Projector produces) and every source raster
with `W, H > 0`, the four pixel lookups are in bounds; for tiny negative
coordinates `rem_euclid`'s compensating f32 addition instead rounds to
exactly the dimension and the lookup is out of bounds. -/
theorem C9_sampler_indices_inbounds (W H : ℕ) (hW : 0 < W) (hH : 0 < H)
    (u v : ℝ) (hu : 0 ≤ u) (hv : 0 ≤ v) :
    idx0F32 W u < W ∧ idx1F32 W u < W ∧ idx0F32 H v < H ∧ idx1F32 H v < H := by
  rw [idx0F32_eq_idx0 W u hu, idx1F32_eq_idx1 W u hu,
    idx0F32_eq_idx0 H v hv, idx1F32_eq_idx1 H v hv]
  exact ⟨idx0_lt W hW u, idx1_lt W hW u, idx0_lt H hH v, idx1_lt H hH v⟩

theorem C9_sampler_indices_inbounds_witness :
    idx0F32 3 (1 / 3) < 3 ∧ idx1F32 3 (1 / 3) < 3 ∧
    idx0F32 2 0 < 2 ∧ idx1F32 2 0 < 2 :=
  C9_sampler_indices_inbounds 3 2 (by norm_num) (by norm_num) (1 / 3) 0
    (by norm_num) (by norm_num)

theorem lerp_mem_of_mem (a b t : ℝ) (ha0 : 0 ≤ a) (ha : a ≤ 255) (hb0 : 0 ≤ b)
    (hb : b ≤ 255) (ht0 : 0 ≤ t) (ht1 : t ≤ 1) :
    0 ≤ a * (1 - t) + b * t ∧ a * (1 - t) + b * t ≤ 255 := by
  constructor <;> nlinarith

/-- C4: with 8-bit inputs and fractional offsets in `[0, 1]`, `bilerp`
computes exactly the two-stage lerp rounded by adding `1/2` and truncating,
and the result is already in `[0, 255]`, so the saturating cast never
clamps. -/
theorem C4_bilerp_exact (c00 c10 c01 c11 : ℕ) (fx fy : ℝ)
    (h00 : c00 ≤ 255) (h10 : c10 ≤ 255) (h01 : c01 ≤ 255) (h11 : c11 ≤ 255)
    (hfx0 : 0 ≤ fx) (hfx1 : fx ≤ 1) (hfy0 : 0 ≤ fy) (hfy1 : fy ≤ 1) :
    (bilerp c00 c10 c01 c11 fx fy : ℤ) =
      ⌊((c00 : ℝ) * (1 - fx) + c10 * fx) * (1 - fy) +
        ((c01 : ℝ) * (1 - fx) + c11 * fx) * fy + 1 / 2⌋ ∧
    bilerp c00 c10 c01 c11 fx fy ≤ 255 := by
  have hc00 : ((c00 : ℝ)) ≤ 255 := by exact_mod_cast h00
  have hc10 : ((c10 : ℝ)) ≤ 255 := by exact_mod_cast h10
  have hc01 : ((c01 : ℝ)) ≤ 255 := by exact_mod_cast h01
  have hc11 : ((c11 : ℝ)) ≤ 255 := by exact_mod_cast h11
  obtain ⟨hl0, hl1⟩ := lerp_mem_of_mem (c00 : ℝ) (c10 : ℝ) fx (by positivity) hc00
    (by positivity) hc10 hfx0 hfx1
  obtain ⟨hm0, hm1⟩ := lerp_mem_of_mem (c01 : ℝ) (c11 : ℝ) fx (by positivity) hc01
    (by positivity) hc11 hfx0 hfx1
  obtain ⟨hv0, hv1⟩ := lerp_mem_of_mem _ _ fy hl0 hl1 hm0 hm1 hfy0 hfy1
  set V : ℝ := ((c00 : ℝ) * (1 - fx) + c10 * fx) * (1 - fy) +
      ((c01 : ℝ) * (1 - fx) + c11 * fx) * fy + 1 / 2 with hV
  have hfl0 : 0 ≤ ⌊V⌋ := Int.floor_nonneg.mpr (by rw [hV]; linarith)
  have hfl1 : ⌊V⌋ < 256 := Int.floor_lt.mpr (by rw [hV]; push_cast; linarith)
  have hble : bilerp c00 c10 c01 c11 fx fy = (⌊V⌋).toNat := by
    simp only [bilerp, f32_as_u8]
    rw [← hV]
    exact min_eq_left (by omega)
  constructor
  · rw [hble]
    exact_mod_cast Int.toNat_of_nonneg hfl0
  · rw [hble]
    omega

theorem C4_bilerp_exact_witness :
    (bilerp 10 20 30 40 (1 / 2) (1 / 2) : ℤ) =
      ⌊((10 : ℝ) * (1 - 1 / 2) + 20 * (1 / 2)) * (1 - 1 / 2) +
        ((30 : ℝ) * (1 - 1 / 2) + 40 * (1 / 2)) * (1 / 2) + 1 / 2⌋ ∧
    bilerp 10 20 30 40 (1 / 2) (1 / 2) ≤ 255 :=
  C4_bilerp_exact 10 20 30 40 (1 / 2) (1 / 2) (by norm_num) (by norm_num)
    (by norm_num) (by norm_num) (by norm_num) (by norm_num) (by norm_num) (by norm_num)

theorem chunkList_flatten {α : Type} (k : ℕ) (l : List α) : (chunkList k l).flatten = l := by
  cases l with
  | nil => simp [chunkList]
  | cons x xs =>
    have ih := chunkList_flatten k (xs.drop (k - 1))
    rw [chunkList]
    simp only [List.flatten_cons, ih]
    simp [List.take_append_drop]
termination_by l.length
decreasing_by simp only [List.length_drop, List.length_cons]; omega

theorem renderChunks_eq_map (img : RgbImage) (size : ℕ) (face : String) (k : ℕ) :
    renderChunks img size face k = (pixelIndices size).map (renderPixel img size face) := by
  unfold renderChunks
  rw [← List.map_flatten, chunkList_flatten]

theorem pixelIndices_nodup (size : ℕ) : (pixelIndices size).Nodup := by
  apply List.Nodup.map_on ?_ (List.nodup_range _)
  intro a ha b hb hfab
  have h1 : a % size = b % size := congrArg Prod.fst hfab
  have h2 : a / size = b / size := congrArg Prod.snd hfab
  have ha' : size * (a / size) + a % size = a := Nat.div_add_mod a size
  have hb' : size * (b / size) + b % size = b := Nat.div_add_mod b size
  rw [← ha', ← hb', h1, h2]

theorem pixelIndices_mem (size x y : ℕ) (hx : x < size) (hy : y < size) :
    (x, y) ∈ pixelIndices size := by
  unfold pixelIndices
  rw [List.mem_map]
  refine ⟨y * size + x, ?_, ?_⟩
  · rw [List.mem_range]
    calc y * size + x < y * size + size := by omega
    _ = (y + 1) * size := by ring
    _ ≤ size * size := Nat.mul_le_mul_right _ (by omega)
  · have hmod : (y * size + x) % size = x := by
      rw [add_comm, Nat.add_mul_mod_self_right, Nat.mod_eq_of_lt hx]
    have hdiv : (y * size + x) / size = y := by
      rw [add_comm, Nat.add_mul_div_right _ _ (by omega : 0 < size),
        Nat.div_eq_of_lt hx, Nat.zero_add]
    rw [hmod, hdiv]

theorem nodup_filter_length_one {α : Type} [DecidableEq α] (a : α) :
    ∀ l : List α, l.Nodup → a ∈ l → (l.filter (fun q => q = a)).length = 1 := by
  intro l
  induction l with
  | nil => intro _ h; cases h
  | cons x xs ih =>
    intro hnd hmem
    rw [List.nodup_cons] at hnd
    by_cases hxa : x = a
    · subst hxa
      rw [List.filter_cons_of_pos (by simp)]
      have hnil : xs.filter (fun q => q = x) = [] := by
        rw [List.filter_eq_nil_iff]
        intro q hq
        simp only [decide_eq_true_eq]
        intro h
        exact hnd.1 (h ▸ hq)
      simp [hnil]
    · rw [List.filter_cons_of_neg (by simp [hxa])]
      apply ih hnd.2
      rcases List.mem_cons.mp hmem with h | h
      · exact absurd h.symm hxa
      · exact h

/-- C6: for every face size `S > 0` and chunk size `k > 0`, the chunk
pixel-ranges exactly partition the `S × S` grid: concatenated in order they
are the whole row-major pixel list, and every grid pixel occurs at exactly
one position of the concatenation. -/
theorem C6_chunks_partition_grid (size k : ℕ) (hsize : 0 < size) (hk : 0 < k) :
    (chunkList k (pixelIndices size)).flatten = pixelIndices size ∧
    ∀ x y, x < size → y < size →
      ((chunkList k (pixelIndices size)).flatten.filter (fun q => q = (x, y))).length = 1 := by
  refine ⟨chunkList_flatten k _, fun x y hx hy => ?_⟩
  rw [chunkList_flatten]
  exact nodup_filter_length_one (x, y) _ (pixelIndices_nodup size)
    (pixelIndices_mem size x y hx hy)

theorem C6_chunks_partition_grid_witness :
    (chunkList 3 (pixelIndices 2)).flatten = pixelIndices 2 ∧
    ∀ x y, x < 2 → y < 2 →
      ((chunkList 3 (pixelIndices 2)).flatten.filter (fun q => q = (x, y))).length = 1 :=
  C6_chunks_partition_grid 2 3 (by norm_num) (by norm_num)

/-- C7: chunk size is invisible in the output: for every source raster, face
and size, any two chunk sizes produce identical face-buffer contents. -/
theorem C7_chunk_size_has_no_effect (img : RgbImage) (size : ℕ) (face : String)
    (k₁ k₂ : ℕ) (h₁ : 0 < k₁) (h₂ : 0 < k₂) :
    renderChunks img size face k₁ = renderChunks img size face k₂ := by
  rw [renderChunks_eq_map, renderChunks_eq_map]

theorem C7_chunk_size_has_no_effect_witness :
    renderChunks { width := 4, height := 2, pix := fun _ _ => (255, 0, 0) } 2 "right" 1 =
    renderChunks { width := 4, height := 2, pix := fun _ _ => (255, 0, 0) } 2 "right" 5 :=
  C7_chunk_size_has_no_effect _ 2 "right" 1 5 (by norm_num) (by norm_num)

theorem bilerp_const (c : ℕ) (hc : c ≤ 255) (fx fy : ℝ) : bilerp c c c c fx fy = c := by
  simp only [bilerp, f32_as_u8]
  have h : ((c : ℝ) * (1 - fx) + c * fx) * (1 - fy) + ((c : ℝ) * (1 - fx) + c * fx) * fy
      + 1 / 2 = c + 1 / 2 := by ring
  rw [h]
  have hfl : ⌊(c : ℝ) + 1 / 2⌋ = (c : ℤ) := by
    rw [Int.floor_eq_iff]
    constructor
    · push_cast
      linarith
    · push_cast
      linarith
  rw [hfl, Int.toNat_natCast]
  exact min_eq_left hc

theorem sample_uniform (img : RgbImage) (r g b : ℕ) (hr : r ≤ 255) (hg : g ≤ 255)
    (hb : b ≤ 255) (himg : ∀ x y, img.pix x y = (r, g, b)) (u v : ℝ) :
    sample img u v = (r, g, b) := by
  simp only [sample, himg]
  rw [bilerp_const r hr, bilerp_const g hg, bilerp_const b hb]

/-- C5: sampling a uniformly coloured source returns exactly that colour at
every real coordinate, and consequently rendering the 4×2 solid red source
at size 4 yields, for every face, a face buffer whose 16 pixels are all
exactly `(255, 0, 0)`. -/
theorem C5_uniform_source_renders_solid :
    (∀ (img : RgbImage) (r g b : ℕ), r ≤ 255 → g ≤ 255 → b ≤ 255 →
      (∀ x y, img.pix x y = (r, g, b)) → ∀ u v : ℝ, sample img u v = (r, g, b)) ∧
    (∀ face ∈ faceNames, faceBuffer redImg 4 face = List.replicate 16 (255, 0, 0)) := by
  refine ⟨fun img r g b hr hg hb himg u v => sample_uniform img r g b hr hg hb himg u v, ?_⟩
  intro face _
  unfold faceBuffer
  rw [renderChunks_eq_map]
  rw [List.eq_replicate_iff]
  constructor
  · simp [pixelIndices]
  · intro p hp
    rw [List.mem_map] at hp
    obtain ⟨q, _, rfl⟩ := hp
    exact sample_uniform redImg 255 0 0 (by norm_num) (by norm_num) (by norm_num)
      (fun _ _ => rfl) _ _

theorem C5_uniform_source_renders_solid_witness :
    sample redImg (1 / 3) (22 / 7) = (255, 0, 0) ∧
    faceBuffer redImg 4 "up" = List.replicate 16 (255, 0, 0) :=
  ⟨C5_uniform_source_renders_solid.1 redImg 255 0 0 (by norm_num) (by norm_num)
      (by norm_num) (fun _ _ => rfl) (1 / 3) (22 / 7),
   C5_uniform_source_renders_solid.2 ("up") (by simp [faceNames])⟩

/-- C8 counterexample: at `S = 0` (a valid 4×2 source), the conversion is not
rejected up front — it creates the output directory (partial work is
performed) and then dies by a panic inside the scheduled render, not by
returning an error. -/
theorem C8_no_upfront_rejection_counterexample :
    (convert_jpg_to_cubemap redImg 0 95).2 =
      ConvertOutcome.panicked ("chunk size must be non-zero") ∧
    (convert_jpg_to_cubemap redImg 0 95).1 = [ConvertEffect.createOutputDir] ∧
    ¬ ((convert_jpg_to_cubemap redImg 0 95).1 = []) := by
  refine ⟨rfl, rfl, ?_⟩
  intro h
  exact List.cons_ne_nil _ _ h

/-- C8 (amended): an invalid input — `S = 0`, or a source raster with zero
width or height — is not validated: the conversion first creates the output
directory, then panics inside the render work (zero chunk size for `S = 0`,
remainder-by-zero for a zero-dimension raster); no face file is written and
no ordinary error is returned. -/
theorem C8_invalid_inputs_unchecked (img : RgbImage) (size quality : ℕ)
    (h : size = 0 ∨ img.width = 0 ∨ img.height = 0) :
    (∃ msg, (convert_jpg_to_cubemap img size quality).2 = ConvertOutcome.panicked msg) ∧
    (convert_jpg_to_cubemap img size quality).1 = [ConvertEffect.createOutputDir] := by
  unfold convert_jpg_to_cubemap
  by_cases hcs : chunkSizeUsed size = 0
  · simp [hcs]
  · have hwh : img.width = 0 ∨ img.height = 0 := by
      rcases h with h | h
      · exact absurd (by simp [chunkSizeUsed, h]) hcs
      · exact h
    simp [hcs, hwh]

theorem C8_invalid_inputs_unchecked_witness :
    (∃ msg, (convert_jpg_to_cubemap redImg 0 95).2 = ConvertOutcome.panicked msg) ∧
    (convert_jpg_to_cubemap redImg 0 95).1 = [ConvertEffect.createOutputDir] :=
  C8_invalid_inputs_unchecked redImg 0 95 (Or.inl rfl)
